import Mathlib

/-!
Verification of the TCP-options codec and timing-risk analyzer from
`src/tcp_analysis.rs` (crate `tcpstrip`).

Bytes are modelled as `Nat` (the code never relies on byte values being
below 256: all comparisons and arithmetic it performs are the same on
`Nat`), byte buffers as `List Nat`, and `u32` arithmetic is carried out
on `Nat` with explicit reduction modulo `2 ^ 32` where the Rust code
uses wrapping operations.
-/

namespace TcpStrip

/-- TCP option types, mirroring `enum TcpOptionType` in the source
(`EndOfOptionList = 0`, `NoOperation = 1`, `MaximumSegmentSize = 2`,
`WindowScale = 3`, `SackPermitted = 4`, `Sack = 5`, `Timestamp = 8`,
plus the `Unknown(u8)` escape variant). -/
inductive TcpOptionType where
  | EndOfOptionList
  | NoOperation
  | MaximumSegmentSize
  | WindowScale
  | SackPermitted
  | Sack
  | Timestamp
  | Unknown (val : Nat)
deriving DecidableEq, Repr

/-- The `impl From<u8> for TcpOptionType` conversion from the source. -/
def TcpOptionType.ofByte (value : Nat) : TcpOptionType :=
  match value with
  | 0 => TcpOptionType.EndOfOptionList
  | 1 => TcpOptionType.NoOperation
  | 2 => TcpOptionType.MaximumSegmentSize
  | 3 => TcpOptionType.WindowScale
  | 4 => TcpOptionType.SackPermitted
  | 5 => TcpOptionType.Sack
  | 8 => TcpOptionType.Timestamp
  | other => TcpOptionType.Unknown other

/-- `struct TcpTimestamp { ts_val: u32, ts_ecr: u32 }`. -/
structure TcpTimestamp where
  ts_val : Nat
  ts_ecr : Nat
deriving DecidableEq, Repr

/-- `struct TcpOption { kind, length, data }`. -/
structure TcpOption where
  kind : TcpOptionType
  length : Nat
  data : List Nat
deriving DecidableEq, Repr

/-- `enum FingerprintRisk`. -/
inductive FingerprintRisk where
  | Low
  | Medium
  | High
  | Critical
deriving DecidableEq, Repr

/-- `struct TcpAnalysisResult`. -/
structure TcpAnalysisResult where
  has_timestamp : Bool
  timestamp : Option TcpTimestamp
  options : List TcpOption
  fingerprint_risk : FingerprintRisk
deriving DecidableEq, Repr

/-- `parse_tcp_options` from the source, written as recursion on the
unread suffix of the buffer (the Rust loop keeps a cursor `pos`; the
suffix starting at `pos` is the argument here, see `parseIdx` below for
the cursor-and-bounds-checked rendition and its equivalence proof).

Case by case against the source: `EndOfOptionList` breaks the loop;
`NoOperation` emits `⟨kind, 1, []⟩` and advances by one byte; any other
kind requires a length byte (`pos + 1 >= options_data.len()` means the
suffix after the kind byte is empty), requires `length >= 2`, requires
the option to fit (`pos + length as usize > options_data.len()` means
`rest2.length < len - 2` here), takes `data = options_data[pos+2..pos+length]`
and advances by `length`. -/
def parse_tcp_options : List Nat → List TcpOption
  | [] => []
  | b :: rest =>
    match TcpOptionType.ofByte b with
    | TcpOptionType.EndOfOptionList => []
    | TcpOptionType.NoOperation =>
        { kind := TcpOptionType.NoOperation, length := 1, data := [] }
          :: parse_tcp_options rest
    | kind =>
        match rest with
        | [] => []
        | len :: rest2 =>
          if len < 2 then []
          else if rest2.length < len - 2 then []
          else
            { kind := kind, length := len, data := rest2.take (len - 2) }
              :: parse_tcp_options (rest2.drop (len - 2))
termination_by l => l.length
decreasing_by
  · simp
  · simp [List.length_drop]; omega

/-- Big-endian `u32` from four bytes (`u32::from_be_bytes`). -/
def u32be (b0 b1 b2 b3 : Nat) : Nat :=
  b0 * 2 ^ 24 + b1 * 2 ^ 16 + b2 * 2 ^ 8 + b3

/-- `extract_timestamp` from the source: `None` unless the option kind is
`Timestamp` and the data is exactly 8 bytes; otherwise the two big-endian
32-bit fields.  The guarded `data[0] .. data[7]` accesses are rendered
with `getD` (the guard makes them in bounds). -/
def extract_timestamp (option : TcpOption) : Option TcpTimestamp :=
  if option.kind ≠ TcpOptionType.Timestamp ∨ option.data.length ≠ 8 then
    none
  else
    let ts_val := u32be (option.data.getD 0 0) (option.data.getD 1 0)
      (option.data.getD 2 0) (option.data.getD 3 0)
    let ts_ecr := u32be (option.data.getD 4 0) (option.data.getD 5 0)
      (option.data.getD 6 0) (option.data.getD 7 0)
    some { ts_val := ts_val, ts_ecr := ts_ecr }

/-- `assess_timestamp_risk` from the source.  The `for &hz in
&common_hz_values` loop over `[100, 250, 300, 1000]` returning `High` on
the first divisor hit is rendered as the equivalent disjunction; the
remaining branches follow the source order. -/
def assess_timestamp_risk (ts : TcpTimestamp) : FingerprintRisk :=
  let ts_val := ts.ts_val
  if ts_val = 0 then
    FingerprintRisk.Low
  else if ts_val % 100 = 0 ∨ ts_val % 250 = 0 ∨ ts_val % 300 = 0 ∨
      ts_val % 1000 = 0 then
    FingerprintRisk.High
  else if ts_val % 1000 = 0 then
    FingerprintRisk.Medium
  else if ts_val < 10000 then
    FingerprintRisk.High
  else
    FingerprintRisk.Medium

/-- One step of the `for option in &options` loop body of
`analyze_tcp_packet`: the state is `(has_timestamp, timestamp,
fingerprint_risk)`.  On a `Timestamp` option the stored `timestamp` is
overwritten by `extract_timestamp option` unconditionally, while
`fingerprint_risk` is updated only when the extraction succeeds. -/
def analyzeStep (s : Bool × Option TcpTimestamp × FingerprintRisk)
    (option : TcpOption) : Bool × Option TcpTimestamp × FingerprintRisk :=
  if option.kind = TcpOptionType.Timestamp then
    let timestamp := extract_timestamp option
    match timestamp with
    | some ts => (true, timestamp, assess_timestamp_risk ts)
    | none => (true, timestamp, s.2.2)
  else
    s

/-- `analyze_tcp_packet` from the source: parse, fold the loop above over
the options starting from `(false, None, Low)`, and package the result. -/
def analyze_tcp_packet (options_data : List Nat) : TcpAnalysisResult :=
  let options := parse_tcp_options options_data
  let st := options.foldl analyzeStep (false, none, FingerprintRisk.Low)
  { has_timestamp := st.1
    timestamp := st.2.1
    options := options
    fingerprint_risk := st.2.2 }

/-- `generate_spoofed_timestamp` from the source; `wrapping_mul` /
`wrapping_add` become explicit reduction modulo `2 ^ 32`. -/
def generate_spoofed_timestamp (base_time increment : Nat) : TcpTimestamp :=
  let random_offset :=
    ((base_time * 1103515245) % 2 ^ 32 + 12345) % 2 ^ 32 % 1000
  let spoofed_ts_val :=
    ((base_time + increment) % 2 ^ 32 + random_offset) % 2 ^ 32
  { ts_val := spoofed_ts_val, ts_ecr := 0 }

/-- The `kind_byte` match inside `strip_timestamp_option`. -/
def kind_byte (kind : TcpOptionType) : Nat :=
  match kind with
  | TcpOptionType.EndOfOptionList => 0
  | TcpOptionType.NoOperation => 1
  | TcpOptionType.MaximumSegmentSize => 2
  | TcpOptionType.WindowScale => 3
  | TcpOptionType.SackPermitted => 4
  | TcpOptionType.Sack => 5
  | TcpOptionType.Timestamp => 8
  | TcpOptionType.Unknown val => val

/-- Bytes emitted for one retained option in `strip_timestamp_option`:
the kind byte, then (except for `EndOfOptionList` / `NoOperation`, which
carry no length or data fields) the stored length byte and data bytes. -/
def encodeOption (option : TcpOption) : List Nat :=
  kind_byte option.kind ::
    (match option.kind with
     | TcpOptionType.EndOfOptionList => []
     | TcpOptionType.NoOperation => []
     | _ => option.length :: option.data)

/-- The `for option in options` loop of `strip_timestamp_option`: emit
every non-`Timestamp` option in order. -/
def stripEncode : List TcpOption → List Nat
  | [] => []
  | option :: rest =>
    if option.kind ≠ TcpOptionType.Timestamp then
      encodeOption option ++ stripEncode rest
    else
      stripEncode rest

/-- The final `while result.len() % 4 != 0 { result.push(0) }` loop:
append zero bytes up to the next 4-byte boundary. -/
def padTo4 (result : List Nat) : List Nat :=
  result ++ List.replicate ((4 - result.length % 4) % 4) 0

/-- `strip_timestamp_option` from the source. -/
def strip_timestamp_option (original_options : List Nat) : List Nat :=
  padTo4 (stripEncode (parse_tcp_options original_options))

/-- Bounds-checked list read, modelling `options_data[i]` on a slice. -/
def getChecked (d : List Nat) (i : Nat) : Option Nat := d.get? i

/-- Bounds-checked slice, modelling `options_data[i..j]`: defined only
when `i ≤ j ≤ d.length` (a Rust slice expression with an out-of-range
index would panic). -/
def sliceChecked (d : List Nat) (i j : Nat) : Option (List Nat) :=
  if i ≤ j ∧ j ≤ d.length then some ((d.drop i).take (j - i)) else none

/-- `parse_tcp_options` rendered exactly as the Rust loop: a cursor `pos`
over the whole buffer, every byte access and slice bounds-checked, a
`none` result standing for a panic.  Used to state decoder totality
(claim C4): the checked scan never produces `none`. -/
def parseIdx (options_data : List Nat) (pos : Nat) : Option (List TcpOption) :=
  if _h : pos < options_data.length then do
    let b ← getChecked options_data pos
    match TcpOptionType.ofByte b with
    | TcpOptionType.EndOfOptionList => pure []
    | TcpOptionType.NoOperation => do
        let rest ← parseIdx options_data (pos + 1)
        pure ({ kind := TcpOptionType.NoOperation, length := 1, data := [] }
          :: rest)
    | kind =>
        if pos + 1 ≥ options_data.length then pure []
        else do
          let len ← getChecked options_data (pos + 1)
          if _h2 : len < 2 then pure []
          else if _h3 : pos + len > options_data.length then pure []
          else do
            let data ← sliceChecked options_data (pos + 2) (pos + len)
            let rest ← parseIdx options_data (pos + len)
            pure ({ kind := kind, length := len, data := data } :: rest)
  else
    pure []
termination_by options_data.length - pos
decreasing_by
  · omega
  · omega

lemma parse_nil : parse_tcp_options [] = [] := by
  simp [parse_tcp_options]

lemma parse_cons_eol (b : Nat) (rest : List Nat)
    (h : TcpOptionType.ofByte b = TcpOptionType.EndOfOptionList) :
    parse_tcp_options (b :: rest) = [] := by
  rw [parse_tcp_options, h]

lemma parse_cons_nop (b : Nat) (rest : List Nat)
    (h : TcpOptionType.ofByte b = TcpOptionType.NoOperation) :
    parse_tcp_options (b :: rest) =
      { kind := TcpOptionType.NoOperation, length := 1, data := [] }
        :: parse_tcp_options rest := by
  rw [parse_tcp_options, h]

lemma parse_cons_one (b : Nat)
    (h1 : TcpOptionType.ofByte b ≠ TcpOptionType.EndOfOptionList)
    (h2 : TcpOptionType.ofByte b ≠ TcpOptionType.NoOperation) :
    parse_tcp_options [b] = [] := by
  rw [parse_tcp_options]
  cases hk : TcpOptionType.ofByte b <;>
    first
      | exact absurd hk h1
      | exact absurd hk h2
      | rfl

lemma parse_cons_opt (b len : Nat) (rest2 : List Nat)
    (h1 : TcpOptionType.ofByte b ≠ TcpOptionType.EndOfOptionList)
    (h2 : TcpOptionType.ofByte b ≠ TcpOptionType.NoOperation)
    (hlen : 2 ≤ len) (hfit : len - 2 ≤ rest2.length) :
    parse_tcp_options (b :: len :: rest2) =
      { kind := TcpOptionType.ofByte b, length := len,
        data := rest2.take (len - 2) }
        :: parse_tcp_options (rest2.drop (len - 2)) := by
  have hlen2 : ¬ (len < 2) := by omega
  have hfit2 : ¬ (rest2.length < len - 2) := by omega
  rw [parse_tcp_options]
  cases hk : TcpOptionType.ofByte b <;>
    first
      | exact absurd hk h1
      | exact absurd hk h2
      | simp [hlen2, hfit2]

lemma parse_cons_badlen (b len : Nat) (rest2 : List Nat)
    (h1 : TcpOptionType.ofByte b ≠ TcpOptionType.EndOfOptionList)
    (h2 : TcpOptionType.ofByte b ≠ TcpOptionType.NoOperation)
    (hlen : len < 2) :
    parse_tcp_options (b :: len :: rest2) = [] := by
  rw [parse_tcp_options]
  cases hk : TcpOptionType.ofByte b <;>
    first
      | exact absurd hk h1
      | exact absurd hk h2
      | simp [hlen]

lemma parse_cons_overrun (b len : Nat) (rest2 : List Nat)
    (h1 : TcpOptionType.ofByte b ≠ TcpOptionType.EndOfOptionList)
    (h2 : TcpOptionType.ofByte b ≠ TcpOptionType.NoOperation)
    (hlen : 2 ≤ len) (hfit : rest2.length < len - 2) :
    parse_tcp_options (b :: len :: rest2) = [] := by
  have hlen2 : ¬ (len < 2) := by omega
  rw [parse_tcp_options]
  cases hk : TcpOptionType.ofByte b <;>
    first
      | exact absurd hk h1
      | exact absurd hk h2
      | simp [hlen2, hfit]

/-- Shape invariant satisfied by every option the decoder produces: it is
either the literal `NoOperation` record, or a TLV option whose kind is
neither padding kind, whose length byte is at least 2 and matches the
data length, and whose kind survives a `kind_byte`-then-`ofByte`
round-trip (which pins `Unknown` payloads to genuinely unknown codes). -/
def GoodOption (o : TcpOption) : Prop :=
  o = { kind := TcpOptionType.NoOperation, length := 1, data := [] } ∨
  (o.kind ≠ TcpOptionType.NoOperation ∧
   o.kind ≠ TcpOptionType.EndOfOptionList ∧
   2 ≤ o.length ∧ o.data.length = o.length - 2 ∧
   TcpOptionType.ofByte (kind_byte o.kind) = o.kind)

lemma ofByte_unknown (b v : Nat)
    (h : TcpOptionType.ofByte b = TcpOptionType.Unknown v) :
    TcpOptionType.ofByte v = TcpOptionType.Unknown v := by
  unfold TcpOptionType.ofByte at h ⊢
  split at h <;> cases h
  split <;> first | rfl | simp_all

lemma ofByte_kind_byte (b : Nat) :
    TcpOptionType.ofByte (kind_byte (TcpOptionType.ofByte b)) =
      TcpOptionType.ofByte b := by
  cases hk : TcpOptionType.ofByte b with
  | Unknown v => exact ofByte_unknown b v hk
  | _ => rfl

lemma parse_good (d : List Nat) :
    ∀ o ∈ parse_tcp_options d, GoodOption o := by
  induction d using parse_tcp_options.induct with
  | case1 => simp [parse_nil]
  | case2 b rest hk =>
      rw [parse_cons_eol b rest hk]
      simp
  | case3 b rest hk ih =>
      rw [parse_cons_nop b rest hk]
      intro o ho
      rcases List.mem_cons.mp ho with h | h
      · exact Or.inl h
      · exact ih o h
  | case4 b h1 h2 =>
      rw [parse_cons_one b h1 h2]
      simp
  | case5 b len rest2 hlen h1 h2 =>
      rw [parse_cons_badlen b len rest2 h1 h2 hlen]
      simp
  | case6 b len rest2 hlen hfit h1 h2 =>
      rw [parse_cons_overrun b len rest2 h1 h2 (by omega) (by omega)]
      simp
  | case7 b len rest2 hlen hfit h1 h2 ih =>
      rw [parse_cons_opt b len rest2 h1 h2 (by omega) (by omega)]
      intro o ho
      rcases List.mem_cons.mp ho with h | h
      · subst h
        refine Or.inr ⟨h2, h1, ?_, ?_, ofByte_kind_byte b⟩
        · show 2 ≤ len
          omega
        · show (rest2.take (len - 2)).length = len - 2
          simp [List.length_take]
          omega
      · exact ih o h

/-- Concatenated encodings of a list of options (the retained-option emit
loop of `strip_timestamp_option`, without the Timestamp filter). -/
def encodeAll : List TcpOption → List Nat
  | [] => []
  | option :: rest => encodeOption option ++ encodeAll rest

lemma stripEncode_eq_encodeAll_filter (opts : List TcpOption) :
    stripEncode opts =
      encodeAll (opts.filter
        (fun o => decide (o.kind ≠ TcpOptionType.Timestamp))) := by
  induction opts with
  | nil => rfl
  | cons o rest ih =>
      by_cases h : o.kind = TcpOptionType.Timestamp
      · simp [stripEncode, h, ih, List.filter]
      · simp [stripEncode, h, ih, List.filter, encodeAll]

lemma encodeOption_other (o : TcpOption)
    (h1 : o.kind ≠ TcpOptionType.EndOfOptionList)
    (h2 : o.kind ≠ TcpOptionType.NoOperation) :
    encodeOption o = kind_byte o.kind :: o.length :: o.data := by
  unfold encodeOption
  cases hk : o.kind <;>
    first
      | exact absurd hk h1
      | exact absurd hk h2
      | rfl

/-- Re-encoding a list of decoder-shaped options and decoding again
recovers exactly those options, whatever well-formed or empty tail
follows them. -/
lemma parse_encodeAll_append (opts : List TcpOption) (tail : List Nat)
    (h : ∀ o ∈ opts, GoodOption o) :
    parse_tcp_options (encodeAll opts ++ tail) =
      opts ++ parse_tcp_options tail := by
  induction opts with
  | nil => simp [encodeAll]
  | cons o rest ih =>
      have ho := h o (List.mem_cons_self o rest)
      have hrest : ∀ o ∈ rest, GoodOption o :=
        fun o hm => h o (List.mem_cons_of_mem _ hm)
      rcases ho with hnop | ⟨hk1, hk2, hlen, hdata, hrt⟩
      · subst hnop
        show parse_tcp_options (1 :: (encodeAll rest ++ tail)) = _
        rw [parse_cons_nop 1 _ rfl, ih hrest]
        rfl
      · rw [show encodeAll (o :: rest) = encodeOption o ++ encodeAll rest from rfl,
            encodeOption_other o hk2 hk1]
        have hofk : TcpOptionType.ofByte (kind_byte o.kind) = o.kind := hrt
        have h1 : TcpOptionType.ofByte (kind_byte o.kind) ≠
            TcpOptionType.EndOfOptionList := by rw [hofk]; exact hk2
        have h2 : TcpOptionType.ofByte (kind_byte o.kind) ≠
            TcpOptionType.NoOperation := by rw [hofk]; exact hk1
        have hfit : o.length - 2 ≤ (o.data ++ (encodeAll rest ++ tail)).length := by
          simp [List.length_append]
          omega
        simp only [List.cons_append, List.append_assoc]
        rw [parse_cons_opt (kind_byte o.kind) o.length
              (o.data ++ (encodeAll rest ++ tail)) h1 h2 hlen hfit]
        congr 1
        · have htake : (o.data ++ (encodeAll rest ++ tail)).take (o.length - 2)
              = o.data := by
            rw [← hdata, List.take_left]
          rw [hofk, htake]
        · have hdrop : (o.data ++ (encodeAll rest ++ tail)).drop (o.length - 2)
              = encodeAll rest ++ tail := by
            rw [← hdata, List.drop_left]
          rw [hdrop, ih hrest]

lemma parse_replicate_zero (k : Nat) :
    parse_tcp_options (List.replicate k 0) = [] := by
  cases k with
  | zero => simp [parse_nil]
  | succ n =>
      rw [List.replicate_succ]
      exact parse_cons_eol 0 _ rfl

/-- Decoding the stripper's output yields exactly the non-Timestamp
options of the input's decoding. -/
lemma parse_strip (d : List Nat) :
    parse_tcp_options (strip_timestamp_option d) =
      (parse_tcp_options d).filter
        (fun o => decide (o.kind ≠ TcpOptionType.Timestamp)) := by
  unfold strip_timestamp_option padTo4
  rw [stripEncode_eq_encodeAll_filter,
      parse_encodeAll_append _ _
        (fun o hm => parse_good d o (List.mem_filter.mp hm).1),
      parse_replicate_zero, List.append_nil]

lemma stripEncode_length_le (d : List Nat) :
    (stripEncode (parse_tcp_options d)).length ≤ d.length := by
  induction d using parse_tcp_options.induct with
  | case1 => simp [parse_nil, stripEncode]
  | case2 b rest hk =>
      rw [parse_cons_eol b rest hk]
      simp [stripEncode]
  | case3 b rest hk ih =>
      rw [parse_cons_nop b rest hk]
      simp [stripEncode, encodeOption, kind_byte]
      omega
  | case4 b h1 h2 =>
      rw [parse_cons_one b h1 h2]
      simp [stripEncode]
  | case5 b len rest2 hlen h1 h2 =>
      rw [parse_cons_badlen b len rest2 h1 h2 hlen]
      simp [stripEncode]
  | case6 b len rest2 hlen hfit h1 h2 =>
      rw [parse_cons_overrun b len rest2 h1 h2 (by omega) (by omega)]
      simp [stripEncode]
  | case7 b len rest2 hlen hfit h1 h2 ih =>
      rw [parse_cons_opt b len rest2 h1 h2 (by omega) (by omega)]
      simp only [List.length_drop] at ih
      by_cases ht : TcpOptionType.ofByte b = TcpOptionType.Timestamp
      · simp [stripEncode, ht]
        omega
      · simp [stripEncode, ht,
          encodeOption_other
            { kind := TcpOptionType.ofByte b, length := len,
              data := rest2.take (len - 2) } h1 h2,
          List.length_take]
        omega

/-- C1: for every input byte sequence, decoding the output of
`strip_timestamp_option` yields a sequence of options in which no option
has kind `Timestamp`, regardless of how many Timestamp options appeared
in the input. -/
theorem strip_output_has_no_timestamp (original_options : List Nat)
    (o : TcpOption)
    (ho : o ∈ parse_tcp_options (strip_timestamp_option original_options)) :
    o.kind ≠ TcpOptionType.Timestamp := by
  rw [parse_strip] at ho
  simpa using (List.mem_filter.mp ho).2

/-- The MSS option used by the C1 witness. -/
def mssOption : TcpOption :=
  { kind := TcpOptionType.MaximumSegmentSize, length := 4, data := [5, 180] }

/-- Witness for C1 at a concrete input holding one Timestamp option. -/
theorem strip_output_has_no_timestamp_witness :
    mssOption ∈ parse_tcp_options (strip_timestamp_option
        [2, 4, 5, 180, 8, 10, 18, 52, 86, 120, 135, 101, 67, 33, 1, 0]) ∧
    mssOption.kind ≠ TcpOptionType.Timestamp := by
  have hm : mssOption ∈ parse_tcp_options (strip_timestamp_option
      [2, 4, 5, 180, 8, 10, 18, 52, 86, 120, 135, 101, 67, 33, 1, 0]) := by
    simp [strip_timestamp_option, parse_tcp_options, TcpOptionType.ofByte,
      stripEncode, encodeOption, kind_byte, padTo4, mssOption]
  exact ⟨hm, strip_output_has_no_timestamp _ _ hm⟩

/-- C8: `strip_timestamp_option` is idempotent. -/
theorem strip_timestamp_option_idempotent (original_options : List Nat) :
    strip_timestamp_option (strip_timestamp_option original_options) =
      strip_timestamp_option original_options := by
  show padTo4 (stripEncode
      (parse_tcp_options (strip_timestamp_option original_options))) =
    strip_timestamp_option original_options
  rw [parse_strip, stripEncode_eq_encodeAll_filter,
      List.filter_eq_self.mpr (fun a ha => (List.mem_filter.mp ha).2)]
  show _ = padTo4 (stripEncode (parse_tcp_options original_options))
  rw [stripEncode_eq_encodeAll_filter]

/-- C9: the length of the stripper's output is always a multiple of 4. -/
theorem strip_output_length_multiple_of_four (original_options : List Nat) :
    (strip_timestamp_option original_options).length % 4 = 0 := by
  show (padTo4 _).length % 4 = 0
  unfold padTo4
  simp only [List.length_append, List.length_replicate]
  omega

/-- C10: the length of the stripper's output never exceeds the input
length rounded up to the next multiple of 4 (in particular a buffer that
fits the 40-byte options field stays within it). -/
theorem strip_output_length_le_roundup (original_options : List Nat) :
    (strip_timestamp_option original_options).length ≤
      4 * ((original_options.length + 3) / 4) := by
  have h := stripEncode_length_le original_options
  show (padTo4 _).length ≤ _
  unfold padTo4
  simp only [List.length_append, List.length_replicate]
  omega

/-- C5: the risk assessor's verdicts on the spec's sample values, and the
fact that it can never return `Critical` for any timestamp value. -/
theorem assess_timestamp_risk_spec :
    assess_timestamp_risk { ts_val := 0, ts_ecr := 0 } = FingerprintRisk.Low ∧
    assess_timestamp_risk { ts_val := 100, ts_ecr := 0 } = FingerprintRisk.High ∧
    assess_timestamp_risk { ts_val := 250, ts_ecr := 0 } = FingerprintRisk.High ∧
    assess_timestamp_risk { ts_val := 5000, ts_ecr := 0 } = FingerprintRisk.High ∧
    assess_timestamp_risk { ts_val := 999999, ts_ecr := 0 } =
      FingerprintRisk.Medium ∧
    ∀ ts : TcpTimestamp,
      assess_timestamp_risk ts ≠ FingerprintRisk.Critical := by
  refine ⟨by decide, by decide, by decide, by decide, by decide, ?_⟩
  intro ts
  simp only [assess_timestamp_risk]
  split
  · simp
  · split
    · simp
    · split
      · simp
      · split <;> simp

/-- C6: `extract_timestamp` returns nothing unless the option kind is
`Timestamp` with exactly 8 data bytes; on such options it returns the two
big-endian 32-bit fields; and the spec's concrete data
`[0x12,0x34,0x56,0x78,0x87,0x65,0x43,0x21]` extracts to
`ts_val = 0x12345678`, `ts_ecr = 0x87654321`. -/
theorem extract_timestamp_spec :
    (∀ o : TcpOption,
      o.kind ≠ TcpOptionType.Timestamp ∨ o.data.length ≠ 8 →
        extract_timestamp o = none) ∧
    (∀ (l : Nat) (d0 d1 d2 d3 d4 d5 d6 d7 : Nat),
      extract_timestamp
        { kind := TcpOptionType.Timestamp, length := l,
          data := [d0, d1, d2, d3, d4, d5, d6, d7] } =
        some { ts_val := u32be d0 d1 d2 d3, ts_ecr := u32be d4 d5 d6 d7 }) ∧
    extract_timestamp
        { kind := TcpOptionType.Timestamp, length := 10,
          data := [0x12, 0x34, 0x56, 0x78, 0x87, 0x65, 0x43, 0x21] } =
      some { ts_val := 0x12345678, ts_ecr := 0x87654321 } := by
  refine ⟨?_, ?_, by decide⟩
  · intro o h
    unfold extract_timestamp
    rw [if_pos h]
  · intro l d0 d1 d2 d3 d4 d5 d6 d7
    rfl

/-- C7: `generate_spoofed_timestamp` always returns `ts_ecr = 0` and
`ts_val = (base + increment + ((base * 1103515245 + 12345) mod 2^32) mod
1000) mod 2^32`, and `generate_spoofed_timestamp 0 0` returns
`ts_val = 345`, `ts_ecr = 0`. -/
theorem generate_spoofed_timestamp_spec :
    (∀ base_time increment : Nat,
      generate_spoofed_timestamp base_time increment =
        { ts_val := (base_time + increment +
            ((base_time * 1103515245 + 12345) % 2 ^ 32) % 1000) % 2 ^ 32,
          ts_ecr := 0 }) ∧
    generate_spoofed_timestamp 0 0 = { ts_val := 345, ts_ecr := 0 } := by
  constructor
  · intro base_time increment
    simp only [generate_spoofed_timestamp, TcpTimestamp.mk.injEq, and_true]
    have h12 : (12345 : Nat) % 2 ^ 32 = 12345 := by norm_num
    rw [Nat.add_mod (base_time * 1103515245) 12345, h12]
    omega
  · simp only [generate_spoofed_timestamp]
    norm_num

lemma parseIdx_eq (d : List Nat) (pos : Nat) :
    parseIdx d pos = some (parse_tcp_options (d.drop pos)) := by
  induction pos using parseIdx.induct with
  | options_data => exact d
  | case2 x hge =>
      rw [parseIdx, dif_neg hge, List.drop_eq_nil_of_le (by omega), parse_nil]
      rfl
  | case1 x hlt ih1 ih2 =>
      have hx : getChecked d x = some (d[x]) := by
        rw [getChecked, List.get?_eq_getElem?, List.getElem?_eq_getElem hlt]
      have hdx : d.drop x = d[x] :: d.drop (x + 1) :=
        List.drop_eq_getElem_cons hlt
      rw [parseIdx, dif_pos hlt, hx, hdx]
      simp only [Option.pure_def, Option.bind_eq_bind, Option.some_bind]
      cases hk : TcpOptionType.ofByte (d[x])
      case EndOfOptionList =>
        rw [parse_cons_eol _ _ hk]
      case NoOperation =>
        rw [ih1]
        simp only [Option.pure_def, Option.bind_eq_bind, Option.some_bind]
        rw [parse_cons_nop _ _ hk]
      all_goals {
        dsimp only
        have h1 : TcpOptionType.ofByte (d[x]) ≠
            TcpOptionType.EndOfOptionList := by rw [hk]; simp
        have h2 : TcpOptionType.ofByte (d[x]) ≠
            TcpOptionType.NoOperation := by rw [hk]; simp
        by_cases hx1 : x + 1 ≥ d.length
        · rw [List.drop_eq_nil_of_le (by omega), parse_cons_one _ h1 h2,
            if_pos hx1]
        · have hx1' : x + 1 < d.length := by omega
          have hlen : getChecked d (x + 1) = some (d[x + 1]) := by
            rw [getChecked, List.get?_eq_getElem?,
              List.getElem?_eq_getElem hx1']
          have hd1 : List.drop (x + 1) d = d[x + 1] :: List.drop (x + 2) d := by
            rw [List.drop_eq_getElem_cons hx1']
          rw [if_neg hx1, hlen, hd1]
          simp only [Option.pure_def, Option.bind_eq_bind, Option.some_bind]
          by_cases h2' : d[x + 1] < 2
          · rw [dif_pos h2', parse_cons_badlen _ _ _ h1 h2 h2']
          · by_cases h3 : x + d[x + 1] > d.length
            · rw [dif_neg h2', dif_pos h3,
                parse_cons_overrun _ _ _ h1 h2 (by omega)
                  (by simp only [List.length_drop]; omega)]
            · have hslice : sliceChecked d (x + 2) (x + d[x + 1]) =
                  some ((List.drop (x + 2) d).take
                    ((x + d[x + 1]) - (x + 2))) := by
                rw [sliceChecked, if_pos ⟨by omega, by omega⟩]
              rw [dif_neg h2', dif_neg h3, hslice]
              simp only [Option.some_bind]
              rw [ih2 (by omega) _ h2' h3]
              simp only [Option.some_bind]
              rw [parse_cons_opt _ _ _ h1 h2 (by omega)
                (by simp only [List.length_drop]; omega)]
              rw [hk]
              have e1 : x + d[x + 1] - (x + 2) = d[x + 1] - 2 := by omega
              have e2 : x + 2 + (d[x + 1] - 2) = x + d[x + 1] := by omega
              rw [e1, List.drop_drop, e2]
      }


/-- C4: decoder totality / no panic.  The cursor-based rendition of the
scan (`parseIdx`), in which every byte access and slice is bounds-checked
and `none` stands for a panic, returns `some` on every input byte
sequence, and its value is exactly what `parse_tcp_options` decodes:
malformed input only stops the scan early with the options decoded so
far. -/
theorem parse_tcp_options_total (options_data : List Nat) :
    parseIdx options_data 0 = some (parse_tcp_options options_data) := by
  have h := parseIdx_eq options_data 0
  rwa [List.drop_zero] at h

/-- A buffer that is a concatenation of options of kinds this codec
understands, none of them Timestamp: `NoOperation` bytes and complete
TLV options of kinds `MaximumSegmentSize`, `WindowScale`,
`SackPermitted`, `Sack` (length byte at least 2 and matching the data).
`EndOfOptionList` is a scan terminator rather than an option, and a
buffer containing it is not a concatenation of options, so it does not
appear here. -/
inductive UnderstoodNoTimestamp : List Nat → Prop
  | nil : UnderstoodNoTimestamp []
  | nop (rest : List Nat) :
      UnderstoodNoTimestamp rest → UnderstoodNoTimestamp (1 :: rest)
  | opt (k len : Nat) (data rest : List Nat) :
      k = 2 ∨ k = 3 ∨ k = 4 ∨ k = 5 →
      2 ≤ len → data.length = len - 2 →
      UnderstoodNoTimestamp rest →
      UnderstoodNoTimestamp (k :: len :: (data ++ rest))

lemma stripEncode_parse_understood (d : List Nat)
    (h : UnderstoodNoTimestamp d) :
    stripEncode (parse_tcp_options d) = d := by
  induction h with
  | nil => rw [parse_nil]; rfl
  | nop rest _ ih =>
      rw [parse_cons_nop 1 rest rfl]
      show encodeOption _ ++ stripEncode (parse_tcp_options rest) = 1 :: rest
      rw [ih]
      rfl
  | opt k len data rest hk hlen hdata _ ih =>
      have hfit : len - 2 ≤ (data ++ rest).length := by
        simp only [List.length_append]
        omega
      have htake : (data ++ rest).take (len - 2) = data := by
        rw [← hdata, List.take_left]
      have hdrop : (data ++ rest).drop (len - 2) = rest := by
        rw [← hdata, List.drop_left]
      rcases hk with rfl | rfl | rfl | rfl <;>
      · rw [parse_cons_opt _ len (data ++ rest) (by decide) (by decide)
          hlen hfit, htake, hdrop]
        show encodeOption _ ++ stripEncode (parse_tcp_options rest) = _
        rw [ih]
        rfl

/-- C3: stripping a buffer made only of understood non-Timestamp options
returns the input itself, zero-padded to a 4-byte boundary (so every
option is preserved in original order and byte content). -/
theorem strip_no_timestamp_is_padded_input (d : List Nat)
    (h : UnderstoodNoTimestamp d) :
    strip_timestamp_option d =
      d ++ List.replicate ((4 - d.length % 4) % 4) 0 := by
  show padTo4 (stripEncode (parse_tcp_options d)) = _
  rw [stripEncode_parse_understood d h]
  rfl

/-- Witness for C3 at the buffer `[MSS 1460, NOP]`. -/
theorem strip_no_timestamp_is_padded_input_witness :
    strip_timestamp_option [2, 4, 5, 180, 1] =
      [2, 4, 5, 180, 1] ++
        List.replicate ((4 - [2, 4, 5, 180, 1].length % 4) % 4) 0 :=
  strip_no_timestamp_is_padded_input [2, 4, 5, 180, 1]
    (UnderstoodNoTimestamp.opt 2 4 [5, 180] [1] (Or.inl rfl) (by omega) rfl
      (UnderstoodNoTimestamp.nop [] UnderstoodNoTimestamp.nil))

/-- The last option of kind `Timestamp` in a decoded option sequence
(the spec's "last one encountered during the scan"). -/
def lastTimestampOption : List TcpOption → Option TcpOption
  | [] => none
  | o :: rest =>
    match lastTimestampOption rest with
    | some o2 => some o2
    | none =>
        if o.kind = TcpOptionType.Timestamp then some o else none

/-- The timestamp of the last `Timestamp` option whose extraction
succeeds (kind `Timestamp` and exactly 8 data bytes). -/
def lastExtractedTimestamp : List TcpOption → Option TcpTimestamp
  | [] => none
  | o :: rest =>
    match lastExtractedTimestamp rest with
    | some ts => some ts
    | none =>
        if o.kind = TcpOptionType.Timestamp then extract_timestamp o
        else none

/-- The `timestamp` component of the analysis loop, as a standalone
scan. -/
def scanTimestamp (opts : List TcpOption) (t0 : Option TcpTimestamp) :
    Option TcpTimestamp :=
  opts.foldl
    (fun acc o =>
      if o.kind = TcpOptionType.Timestamp then extract_timestamp o else acc)
    t0

/-- The `fingerprint_risk` component of the analysis loop, as a
standalone scan. -/
def scanRisk (opts : List TcpOption) (r0 : FingerprintRisk) :
    FingerprintRisk :=
  opts.foldl
    (fun acc o =>
      if o.kind = TcpOptionType.Timestamp then
        match extract_timestamp o with
        | some ts => assess_timestamp_risk ts
        | none => acc
      else acc)
    r0

lemma analyzeStep_timestamp (s : Bool × Option TcpTimestamp × FingerprintRisk)
    (o : TcpOption) :
    (analyzeStep s o).2.1 =
      if o.kind = TcpOptionType.Timestamp then extract_timestamp o
      else s.2.1 := by
  unfold analyzeStep
  by_cases h : o.kind = TcpOptionType.Timestamp
  · rw [if_pos h, if_pos h]
    cases extract_timestamp o <;> rfl
  · rw [if_neg h, if_neg h]

lemma analyzeStep_risk (s : Bool × Option TcpTimestamp × FingerprintRisk)
    (o : TcpOption) :
    (analyzeStep s o).2.2 =
      if o.kind = TcpOptionType.Timestamp then
        match extract_timestamp o with
        | some ts => assess_timestamp_risk ts
        | none => s.2.2
      else s.2.2 := by
  unfold analyzeStep
  by_cases h : o.kind = TcpOptionType.Timestamp
  · rw [if_pos h, if_pos h]
    cases extract_timestamp o <;> rfl
  · rw [if_neg h, if_neg h]

lemma foldl_analyze_timestamp (opts : List TcpOption) :
    ∀ s : Bool × Option TcpTimestamp × FingerprintRisk,
      (opts.foldl analyzeStep s).2.1 = scanTimestamp opts s.2.1 := by
  induction opts with
  | nil => intro s; rfl
  | cons o rest ih =>
      intro s
      show (rest.foldl analyzeStep (analyzeStep s o)).2.1 = _
      rw [ih (analyzeStep s o)]
      show scanTimestamp rest (analyzeStep s o).2.1 =
        scanTimestamp rest (if o.kind = TcpOptionType.Timestamp then
          extract_timestamp o else s.2.1)
      rw [analyzeStep_timestamp]

lemma foldl_analyze_risk (opts : List TcpOption) :
    ∀ s : Bool × Option TcpTimestamp × FingerprintRisk,
      (opts.foldl analyzeStep s).2.2 = scanRisk opts s.2.2 := by
  induction opts with
  | nil => intro s; rfl
  | cons o rest ih =>
      intro s
      show (rest.foldl analyzeStep (analyzeStep s o)).2.2 = _
      rw [ih (analyzeStep s o)]
      show scanRisk rest (analyzeStep s o).2.2 =
        scanRisk rest (if o.kind = TcpOptionType.Timestamp then
          match extract_timestamp o with
          | some ts => assess_timestamp_risk ts
          | none => s.2.2
          else s.2.2)
      rw [analyzeStep_risk]

lemma scanTimestamp_spec (opts : List TcpOption) :
    ∀ t0 : Option TcpTimestamp,
      scanTimestamp opts t0 =
        match lastTimestampOption opts with
        | some o => extract_timestamp o
        | none => t0 := by
  induction opts with
  | nil => intro t0; rfl
  | cons o rest ih =>
      intro t0
      show scanTimestamp rest
        (if o.kind = TcpOptionType.Timestamp then extract_timestamp o
          else t0) = _
      rw [ih]
      simp only [lastTimestampOption]
      cases lastTimestampOption rest with
      | some o2 => rfl
      | none =>
          by_cases h : o.kind = TcpOptionType.Timestamp
          · rw [if_pos h, if_pos h]
          · rw [if_neg h, if_neg h]

lemma scanRisk_spec (opts : List TcpOption) :
    ∀ r0 : FingerprintRisk,
      scanRisk opts r0 =
        match lastExtractedTimestamp opts with
        | some ts => assess_timestamp_risk ts
        | none => r0 := by
  induction opts with
  | nil => intro r0; rfl
  | cons o rest ih =>
      intro r0
      show scanRisk rest
        (if o.kind = TcpOptionType.Timestamp then
          match extract_timestamp o with
          | some ts => assess_timestamp_risk ts
          | none => r0
          else r0) = _
      rw [ih]
      simp only [lastExtractedTimestamp]
      cases lastExtractedTimestamp rest with
      | some ts => rfl
      | none =>
          by_cases h : o.kind = TcpOptionType.Timestamp
          · rw [if_pos h, if_pos h]
          · rw [if_neg h, if_neg h]

/-- Counterexample to C2 as stated: two buffers whose decoded sequences
hold more than one Timestamp option and share the same last Timestamp
option (a malformed `[8, 2]` one whose extraction fails), yet get
different risk values — the risk kept is the assessment of the last
successfully extracted option, not of the last Timestamp option. -/
theorem analyze_last_timestamp_counterexample :
    2 ≤ ((parse_tcp_options [8, 10, 0, 0, 0, 100, 0, 0, 0, 0, 8, 2]).filter
        (fun o => decide (o.kind = TcpOptionType.Timestamp))).length ∧
    2 ≤ ((parse_tcp_options [8, 10, 0, 0, 0, 0, 0, 0, 0, 0, 8, 2]).filter
        (fun o => decide (o.kind = TcpOptionType.Timestamp))).length ∧
    lastTimestampOption
        (parse_tcp_options [8, 10, 0, 0, 0, 100, 0, 0, 0, 0, 8, 2]) =
      lastTimestampOption
        (parse_tcp_options [8, 10, 0, 0, 0, 0, 0, 0, 0, 0, 8, 2]) ∧
    (analyze_tcp_packet
        [8, 10, 0, 0, 0, 100, 0, 0, 0, 0, 8, 2]).fingerprint_risk ≠
      (analyze_tcp_packet
        [8, 10, 0, 0, 0, 0, 0, 0, 0, 0, 8, 2]).fingerprint_risk := by
  refine ⟨?_, ?_, ?_, ?_⟩ <;>
    simp [parse_tcp_options, TcpOptionType.ofByte, analyze_tcp_packet,
      analyzeStep, extract_timestamp, assess_timestamp_risk, u32be,
      lastTimestampOption]

/-- C2 (amended): when more than one Timestamp option appears among the
decoded options, the `timestamp` field is the extraction result of the
last Timestamp option encountered during the scan, and the
`fingerprint_risk` field is the assessment of the last Timestamp option
whose extraction succeeded (staying `Low` when none did). -/
theorem analyze_reflects_last_timestamp (options_data : List Nat)
    (hmulti : 2 ≤ ((parse_tcp_options options_data).filter
      (fun o => decide (o.kind = TcpOptionType.Timestamp))).length) :
    (analyze_tcp_packet options_data).timestamp =
      (match lastTimestampOption (parse_tcp_options options_data) with
       | some o => extract_timestamp o
       | none => none) ∧
    (analyze_tcp_packet options_data).fingerprint_risk =
      (match lastExtractedTimestamp (parse_tcp_options options_data) with
       | some ts => assess_timestamp_risk ts
       | none => FingerprintRisk.Low) := by
  constructor
  · show (List.foldl analyzeStep (false, none, FingerprintRisk.Low)
      (parse_tcp_options options_data)).2.1 = _
    rw [foldl_analyze_timestamp, scanTimestamp_spec]
  · show (List.foldl analyzeStep (false, none, FingerprintRisk.Low)
      (parse_tcp_options options_data)).2.2 = _
    rw [foldl_analyze_risk, scanRisk_spec]

/-- Witness for the amended C2 at a buffer with two Timestamp options,
the second malformed. -/
theorem analyze_reflects_last_timestamp_witness :
    2 ≤ ((parse_tcp_options [8, 10, 0, 0, 0, 100, 0, 0, 0, 0, 8, 2]).filter
      (fun o => decide (o.kind = TcpOptionType.Timestamp))).length ∧
    ((analyze_tcp_packet [8, 10, 0, 0, 0, 100, 0, 0, 0, 0, 8, 2]).timestamp =
      (match lastTimestampOption
          (parse_tcp_options [8, 10, 0, 0, 0, 100, 0, 0, 0, 0, 8, 2]) with
       | some o => extract_timestamp o
       | none => none) ∧
    (analyze_tcp_packet
        [8, 10, 0, 0, 0, 100, 0, 0, 0, 0, 8, 2]).fingerprint_risk =
      (match lastExtractedTimestamp
          (parse_tcp_options [8, 10, 0, 0, 0, 100, 0, 0, 0, 0, 8, 2]) with
       | some ts => assess_timestamp_risk ts
       | none => FingerprintRisk.Low)) := by
  have hm : 2 ≤ ((parse_tcp_options
      [8, 10, 0, 0, 0, 100, 0, 0, 0, 0, 8, 2]).filter
      (fun o => decide (o.kind = TcpOptionType.Timestamp))).length := by
    simp [parse_tcp_options, TcpOptionType.ofByte]
  exact ⟨hm, analyze_reflects_last_timestamp _ hm⟩

/-- Witness for C6 at a non-Timestamp option. -/
theorem extract_timestamp_spec_witness :
    (mssOption.kind ≠ TcpOptionType.Timestamp ∨ mssOption.data.length ≠ 8) ∧
      extract_timestamp mssOption = none :=
  ⟨Or.inl (by decide), extract_timestamp_spec.1 mssOption (Or.inl (by decide))⟩

end TcpStrip
